import Mathlib

/-!
Verification development for the MEDEA multi-entity linker.

The Python sources under `entity_linking/` and `MultiEntityLinker.py` are
shallowly embedded below.  External collaborators (the Wikidata HTTP API,
the NLTK tokenizers, the sentence-transformer embedding model) are passed
in as explicit function parameters; the outcome of a `requests.get` call
on a `Special:EntityData` URL is modelled by the `Fetched` type.  Python
exceptions are modelled with `Except String`; a `.error` value corresponds
to an uncaught exception propagating out of the embedded function.
-/

set_option maxRecDepth 4000

namespace Medea

/-- Lowercasing modelled character by character (Python `lower()` on ASCII
text), written so that it reduces by kernel evaluation. -/
def pyToLower (s : String) : String := String.mk (s.data.map Char.toLower)

/-- Value stored under one key of a projected entity dictionary: either a
scalar string or a list of strings, mirroring the scalar-or-list collapse
in `extract_wikidata_entity_info`. -/
inductive PyVal
  | str (s : String)
  | list (vs : List String)
  deriving DecidableEq, Repr

/-- A projected record, i.e. the Python dict built by
`extract_wikidata_entity_info`, as an insertion-ordered association list. -/
abbrev EntityInfo := List (String × PyVal)

/-- Wikidata claim value as seen by the projection code: a JSON object
carrying an `id` key (an entity reference) or a literal string value. -/
inductive WDValue
  | ref (id : String)
  | lit (s : String)
  deriving DecidableEq, Repr

/-- One claim (`mainsnak`) of a Wikidata entity. The `value` field is only
read by the code when `snaktype = "value"`. -/
structure WDClaim where
  snaktype : String
  value : WDValue
  deriving DecidableEq, Repr

/-- The part of a Wikidata `Special:EntityData` record that the code reads:
`type`, localized `labels` and `descriptions`, and the `claims` dict mapping
a property id to its list of claims.  Dicts are insertion-ordered
association lists. -/
structure WDEntity where
  type : String
  labels : List (String × String)
  descriptions : List (String × String)
  claims : List (String × List WDClaim)
  deriving DecidableEq, Repr

/-- Outcome of `requests.get` on a `Special:EntityData/{qid}.json` URL:
the call itself raises (connection-level transport error), the response has
a non-200 status, the response parses but lacks the expected keys (a
`KeyError` on access), or the entity record is obtained. -/
inductive Fetched
  | raise
  | badStatus
  | malformed
  | ok (e : WDEntity)
  deriving DecidableEq, Repr

/-- Python dict insertion semantics on an association list: an existing key
keeps its position and gets the new value; a new key is appended. -/
def pyDictInsert {α : Type} : List (String × α) → String → α → List (String × α)
  | [], k, v => [(k, v)]
  | kv :: rest, k, v =>
    if kv.1 == k then (k, v) :: rest else kv :: pyDictInsert rest k v

/-- Embedding of `np.linspace(a, b, n)` over exact rationals. -/
def linspace (a b : ℚ) (n : ℕ) : List ℚ :=
  if n = 0 then []
  else if n = 1 then [a]
  else (List.range n).map (fun i : ℕ => a + (i : ℚ) * (b - a) / ((n : ℚ) - 1))

/-- The location filter property ids from `LocationEntityLinker.__init__`. -/
def locationFilterProperties : List String := ["P37", "P1082", "P150", "P1566"]

/-- The organization filter property ids from `OrganizationEntityLinker.__init__`. -/
def organizationFilterProperties : List String := ["P452", "P355", "P740", "P112", "P1128", "P571"]

/-- A record id passes the type filter when its fetch succeeds, its type is
`item` and at least one filter property occurs among its claims.  This is
the acceptance condition of `filter_location_qids` and
`filter_organization_qids`. -/
def passes_filter (filterProps : List String) (fetch : String → Fetched) (qid : String) : Bool :=
  match fetch qid with
  | .ok e => e.type == "item" && filterProps.any (fun p => (e.claims.lookup p).isSome)
  | _ => false

/-- Embedding of `filter_location_qids` / `filter_organization_qids` (they
differ only in the list of filter properties).  The `requests.get` call is
outside the `try` block in the source, so a raising fetch propagates as an
error; a non-200 status or a `KeyError`/other exception while reading the
parsed body is caught and the id is skipped. -/
def filter_qids (filterProps : List String) (fetch : String → Fetched) :
    List String → Except String (List String)
  | [] => .ok []
  | q :: rest =>
    match fetch q with
    | .raise => .error "requests.exceptions.ConnectionError"
    | .badStatus => filter_qids filterProps fetch rest
    | .malformed => filter_qids filterProps fetch rest
    | .ok e =>
      match filter_qids filterProps fetch rest with
      | .error err => .error err
      | .ok l =>
        .ok (if e.type == "item" && filterProps.any (fun p => (e.claims.lookup p).isSome)
             then q :: l else l)

/-- Embedding of `LocationEntityLinker.filter_location_qids`. -/
def filter_location_qids (fetch : String → Fetched) (qids : List String) :
    Except String (List String) :=
  filter_qids locationFilterProperties fetch qids

/-- Embedding of `OrganizationEntityLinker.filter_organization_qids`. -/
def filter_organization_qids (fetch : String → Fetched) (qids : List String) :
    Except String (List String) :=
  filter_qids organizationFilterProperties fetch qids

/-- The `results_information` dict of `location_wikidata_search` /
`organization_wikidata_search`: truncate the search results to
`num_results`, drop hits with an empty snippet, and build a Python dict
keyed by title. -/
def resultsInformationOf (searchResults : List (String × String)) (numResults : ℕ) :
    List (String × String) :=
  (searchResults.take numResults).foldl
    (fun d ts => if ts.2 == "" then d else pyDictInsert d ts.1 ts.2) []

/-- The `results_qids` list: keys of `results_information` in insertion
order (the rank order among snippet-bearing hits). -/
def snippetQidsOf (searchResults : List (String × String)) (numResults : ℕ) : List String :=
  (resultsInformationOf searchResults numResults).map (fun kv => kv.1)

/-- Embedding of `location_wikidata_search` / `organization_wikidata_search`
(they differ only in the filter-property list).  The list of `(title,
snippet)` search hits returned by the Wikidata API is a parameter. -/
def wikidata_search (filterProps : List String) (fetch : String → Fetched)
    (searchResults : List (String × String)) (numResults : ℕ) :
    Except String (List (String × String × ℚ)) :=
  match filter_qids filterProps fetch (snippetQidsOf searchResults numResults) with
  | .error err => .error err
  | .ok filteredQids =>
    let resultsQids := snippetQidsOf searchResults numResults
    let weights := linspace 1 (1/100) numResults
    .ok ((resultsInformationOf searchResults numResults).filterMap (fun qs =>
      if filteredQids.contains qs.1 then
        some (qs.1, qs.2, weights.getD (resultsQids.indexOf qs.1) 0)
      else none))

/-- Embedding of `LocationEntityLinker.location_wikidata_search`. -/
def location_wikidata_search (fetch : String → Fetched)
    (searchResults : List (String × String)) (numResults : ℕ) :
    Except String (List (String × String × ℚ)) :=
  wikidata_search locationFilterProperties fetch searchResults numResults

/-- Embedding of `OrganizationEntityLinker.organization_wikidata_search`. -/
def organization_wikidata_search (fetch : String → Fetched)
    (searchResults : List (String × String)) (numResults : ℕ) :
    Except String (List (String × String × ℚ)) :=
  wikidata_search organizationFilterProperties fetch searchResults numResults

/-! ### Context extraction

`extract_context_by_sentences` iterates over the result of Python
`set(...)` without sorting it, so its concatenation order is the CPython
set iteration order.  The functions below model CPython `setobject.c` for
nonnegative integer keys (whose hash is the key itself): open addressing in
a power-of-two table starting at 8 slots, up to 9 linear probes when they
fit under the mask, the `i*5 + 1 + perturb` recurrence with
`PERTURB_SHIFT = 5`, growth to the smallest power of two above `used * 4`
once `fill * 5 ≥ mask * 3`, and iteration by ascending slot. -/

/-- Scan slots `i, i+1, ..., i+count` of the table: the first empty slot is
returned as `inl`, finding the key returns `inr true`, exhausting the run
returns `inr false`. -/
def setScan (table : Array (Option ℕ)) (k : ℕ) : ℕ → ℕ → Sum ℕ Bool
  | i, 0 =>
    match table.getD i none with
    | none => Sum.inl i
    | some k2 => if k2 = k then Sum.inr true else Sum.inr false
  | i, c + 1 =>
    match table.getD i none with
    | none => Sum.inl i
    | some k2 => if k2 = k then Sum.inr true else setScan table k (i + 1) c

/-- Probe sequence of `set_add_entry`: returns the slot where `k` is to be
inserted, or `none` when `k` is already present.  The fuel bounds the outer
probe loop; it is never exhausted on a table that has an empty slot. -/
def setFindSlot (table : Array (Option ℕ)) (k : ℕ) : ℕ → ℕ → ℕ → Option ℕ
  | 0, _, _ => none
  | fuel + 1, i, perturb =>
    let mask := table.size - 1
    let probes := if i + 9 ≤ mask then 9 else 0
    match setScan table k i probes with
    | Sum.inl slot => some slot
    | Sum.inr true => none
    | Sum.inr false =>
      let perturb2 := perturb / 32
      setFindSlot table k fuel ((i * 5 + 1 + perturb2) % (mask + 1)) perturb2

/-- Insert `k` into the table without growing it; the boolean reports
whether `k` was newly inserted. -/
def setInsertRaw (table : Array (Option ℕ)) (k : ℕ) : Array (Option ℕ) × Bool :=
  let mask := table.size - 1
  match setFindSlot table k (table.size + 16) (k % (mask + 1)) k with
  | none => (table, false)
  | some slot =>
    if h : slot < table.size then (table.set ⟨slot, h⟩ (some k), true) else (table, false)

/-- Keys of the table in ascending slot order — the set iteration order. -/
def tableEntries (table : Array (Option ℕ)) : List ℕ :=
  table.toList.filterMap id

/-- Smallest power of two (at least 8) strictly greater than `minused`,
as computed by `set_table_resize`. -/
def growSizeAux (minused : ℕ) : ℕ → ℕ → ℕ
  | 0, cur => cur
  | fuel + 1, cur => if cur ≤ minused then growSizeAux minused fuel (cur * 2) else cur

def growSize (minused : ℕ) : ℕ := growSizeAux minused 64 8

/-- Rebuild the table at the new size, re-inserting the surviving keys in
old-table scan order. -/
def setResize (entries : List ℕ) (minused : ℕ) : Array (Option ℕ) :=
  entries.foldl (fun t k => (setInsertRaw t k).1) (Array.mkArray (growSize minused) none)

/-- One `set.add(k)` on the pair (table, used count), growing the table
when the fill ratio crosses 3/5. -/
def setAddFull (st : Array (Option ℕ) × ℕ) (k : ℕ) : Array (Option ℕ) × ℕ :=
  let t := st.1
  let used := st.2
  let t2i := setInsertRaw t k
  if t2i.2 then
    let used2 := used + 1
    let mask := t2i.1.size - 1
    if used2 * 5 ≥ mask * 3 then
      let minused := if used2 > 50000 then used2 * 2 else used2 * 4
      (setResize (tableEntries t2i.1) minused, used2)
    else (t2i.1, used2)
  else (t, used)

/-- Iteration order of the CPython set built by inserting the elements of
`xs` left to right. -/
def cpySetOrder (xs : List ℕ) : List ℕ :=
  tableEntries (xs.foldl setAddFull (Array.mkArray 8 none, 0)).1

/-- Embedding of `np.arange(lo, hi)` over the integers. -/
def intRange (lo hi : ℤ) : List ℤ :=
  (List.range (hi - lo).toNat).map (fun k => lo + (k : ℤ))

/-- Characters matched by the regular expression `\s` on ASCII text. -/
def isPyWhitespace (c : Char) : Bool :=
  c == ' ' || c == '\t' || c == '\n' || c == '\r' || c == '\x0b' || c == '\x0c'

/-- Split a character list at every character satisfying `p`, keeping empty
pieces, accumulating the current piece in reverse. -/
def splitCharsAux (p : Char → Bool) : List Char → List Char → List String
  | [], acc => [String.mk acc.reverse]
  | c :: cs, acc =>
    if p c then String.mk acc.reverse :: splitCharsAux p cs []
    else splitCharsAux p cs (c :: acc)

/-- Embedding of `re.split('\s', text)`: split at every single whitespace
character, keeping empty pieces. -/
def pySplitWhitespace (text : String) : List String :=
  splitCharsAux isPyWhitespace text.data []

/-- Insert into a sorted list (ascending). -/
def insertSorted (x : ℤ) : List ℤ → List ℤ
  | [] => [x]
  | y :: ys => if x ≤ y then x :: y :: ys else y :: insertSorted x ys

/-- Ascending insertion sort, modelling Python `sorted`. -/
def sortInts (xs : List ℤ) : List ℤ :=
  xs.foldr insertSorted []

/-- Drop adjacent duplicates of a sorted list; composed with `sortInts`
this models Python `sorted(set(xs))`. -/
def dedupAdj : List ℤ → List ℤ
  | [] => []
  | [x] => [x]
  | x :: y :: r => if x = y then dedupAdj (y :: r) else x :: dedupAdj (y :: r)

/-- The anchor search loop of `extract_context_by_words`: walk the words
accumulating `len(word) + 1` and return the first word whose cumulative
count exceeds `start_char`; `none` when the loop falls through (in Python
the loop variable is then never assigned and the subsequent read raises
`UnboundLocalError`). -/
def findTriggerWord : List String → ℕ → ℕ → Option String
  | [], _, _ => none
  | w :: ws, cum, startChar =>
    let c := cum + w.length + 1
    if startChar < c then some w else findTriggerWord ws c startChar

/-- The anchor search loop of `extract_context_by_sentences`, accumulating
plain sentence lengths. -/
def findTriggerSentence : List String → ℕ → ℕ → Option String
  | [], _, _ => none
  | s :: ss, cum, startChar =>
    let c := cum + s.length
    if startChar < c then some s else findTriggerSentence ss c startChar

/-- Clip an index into `[0, len-1]`, the `clip_function` of the source. -/
def clipIndex (len : ℕ) (x : ℤ) : ℤ :=
  min (max x 0) ((len : ℤ) - 1)

/-- Embedding of `EntityLinker.extract_context_by_words`.  An `.error`
value models the `UnboundLocalError` raised when `start_char` lies beyond
the cumulative character count. -/
def extract_context_by_words (text : String) (start_char context_window : ℕ) :
    Except String String :=
  let words := pySplitWhitespace text
  match findTriggerWord words 0 start_char with
  | none => .error "UnboundLocalError"
  | some w =>
    let selected := words.indexOf w
    if context_window = 0 then .ok (words.getD selected "")
    else
      let lo : ℤ := (selected : ℤ) - (context_window : ℤ)
      let hi : ℤ := (selected : ℤ) + (context_window : ℤ) + 1
      let clipped := (intRange lo hi).map (clipIndex words.length)
      let sortedIds := dedupAdj (sortInts clipped)
      .ok (" ".intercalate (sortedIds.map (fun i => words.getD i.toNat "")))

/-- Embedding of `EntityLinker.extract_context_by_sentences`.  The sentence
list produced by `sent_tokenize` is a parameter.  Unlike the word variant,
the source does not sort the clipped id set, so the concatenation follows
the CPython set iteration order. -/
def extract_context_by_sentences (sentences : List String) (start_char context_window : ℕ) :
    Except String String :=
  match findTriggerSentence sentences 0 start_char with
  | none => .error "UnboundLocalError"
  | some s =>
    let selected := sentences.indexOf s
    if context_window = 0 then .ok (sentences.getD selected "")
    else
      let lo : ℤ := (selected : ℤ) - (context_window : ℤ)
      let hi : ℤ := (selected : ℤ) + (context_window : ℤ) + 1
      let clipped := (intRange lo hi).map (clipIndex sentences.length)
      let orderedIds := cpySetOrder (clipped.map Int.toNat)
      .ok (String.join (orderedIds.map (fun i => sentences.getD i "")))

/-! ### Disambiguation -/

/-- Maximum of a list of scores, `none` on the empty list (where `numpy`
raises). -/
def listMax : List ℚ → Option ℚ
  | [] => none
  | x :: xs => some (xs.foldl max x)

/-- Embedding of `EntityLinker.context_entity_matching`.  The candidate
dict is the insertion-ordered list of `(name, (snippet, weight))` triples;
the embedding model is abstracted by `cosSim`, the cosine similarity of the
embeddings of its two arguments. -/
def context_entity_matching (cosSim : String → String → ℚ) (context : String)
    (entity_candidates : List (String × String × ℚ)) : Except String String :=
  let weighted := entity_candidates.map (fun c => cosSim context c.2.1 * c.2.2)
  match listMax weighted with
  | none => .error "ValueError"
  | some m =>
    let names := entity_candidates.map (fun c => c.1)
    .ok (names.getD (weighted.indexOf m) "")

/-- Embedding of `EntityLinker.entity_label_matching`: identical selection
over a dict of `(candidate name, weight)` pairs, embedding the names. -/
def entity_label_matching (cosSim : String → String → ℚ) (entity_label : String)
    (candidate_labels : List (String × ℚ)) : Except String String :=
  let weighted := candidate_labels.map (fun c => cosSim entity_label c.1 * c.2)
  match listMax weighted with
  | none => .error "ValueError"
  | some m =>
    let names := candidate_labels.map (fun c => c.1)
    .ok (names.getD (weighted.indexOf m) "")

/-! ### Record projection -/

/-- Whether the first character list is a prefix of the second. -/
def charsStartWith : List Char → List Char → Bool
  | [], _ => true
  | _ :: _, [] => false
  | p :: ps, c :: cs => p == c && charsStartWith ps cs

/-- Whether the second character list occurs inside the first. -/
def charsContain : List Char → List Char → Bool
  | [], pat => pat.isEmpty
  | c :: cs, pat => charsStartWith pat (c :: cs) || charsContain cs pat

/-- Naive substring test, modelling the Python expression `"id" in value`
when `value` is a string. -/
def strContains (s pat : String) : Bool :=
  charsContain s.data pat.data

/-- Embedding of `EntityLinker.get_entity_info`: a 200 response yields the
entity record, a non-200 status yields `None`; the function has no `try`
block, so a raising `requests.get` or a body without the expected keys
propagates. -/
def get_entity_info (fetch : String → Fetched) (qid : String) :
    Except String (Option WDEntity) :=
  match fetch qid with
  | .raise => .error "requests.exceptions.ConnectionError"
  | .badStatus => .ok none
  | .malformed => .error "KeyError"
  | .ok e => .ok (some e)

/-- Resolution of one referenced value inside the projection loop of
`extract_wikidata_entity_info`: fetch the referenced entity and take its
label in `lang_code`, falling back to English.  Every failure (raising
fetch, non-200 status, malformed body, missing labels) is swallowed by the
surrounding bare `except` or the status check, dropping that single value. -/
def resolveRefLabel (fetch : String → Fetched) (lang id : String) : Option String :=
  match fetch id with
  | .ok e =>
    match e.labels.lookup lang with
    | some v => some v
    | none => e.labels.lookup "en"
  | _ => none

/-- Values extracted from the claims of one property: claims whose snaktype
is not `value` are skipped; a referenced value contributes its resolved
label or is dropped; a literal string containing `"id"` trips the
`"id" in value` test, and the subsequent string indexing raises a
`TypeError` caught by the bare `except`, dropping the value; other literal
strings are appended as-is. -/
def claimValues (fetch : String → Fetched) (lang : String) : List WDClaim → List String
  | [] => []
  | c :: cs =>
    if c.snaktype == "value" then
      match c.value with
      | .ref id =>
        match resolveRefLabel fetch lang id with
        | some label => label :: claimValues fetch lang cs
        | none => claimValues fetch lang cs
      | .lit s =>
        if strContains s "id" then claimValues fetch lang cs
        else s :: claimValues fetch lang cs
    else claimValues fetch lang cs

/-- Collapse rule applied to the extracted values of one requested
property: zero values stay an empty list, exactly one value becomes a
scalar, two or more stay a list. -/
def collapseValues (vs : List String) : PyVal :=
  if vs.length = 0 then PyVal.list []
  else if vs.length > 1 then PyVal.list vs
  else PyVal.str (vs.getD 0 "")

/-- The claims-projection loop of `extract_wikidata_entity_info`: iterate
the claims dict in order, and for every property that is a key of the
requested schema store the collapsed values under the schema's output
name. -/
def projectClaims (fetch : String → Fetched) (lang : String)
    (entity_properties : List (String × String)) (claims : List (String × List WDClaim))
    (acc : EntityInfo) : EntityInfo :=
  claims.foldl (fun d pc =>
    match entity_properties.lookup pc.1 with
    | none => d
    | some outName => pyDictInsert d outName (collapseValues (claimValues fetch lang pc.2))) acc

/-- Embedding of `EntityLinker.extract_wikidata_entity_info`.  When
`get_entity_info` yields `None` the empty dict is returned; a label or
description missing in both the requested and the fallback language raises
a `KeyError` that propagates (there is no `try` around these reads). -/
def extract_wikidata_entity_info (fetch : String → Fetched) (wikidata_qid : String)
    (entity_properties : List (String × String)) (lang_code : String) :
    Except String EntityInfo :=
  match get_entity_info fetch wikidata_qid with
  | .error err => .error err
  | .ok none => .ok []
  | .ok (some e) =>
    match
      (match e.labels.lookup lang_code with
       | some v => some v
       | none => e.labels.lookup "en") with
    | none => .error "KeyError"
    | some label =>
      match
        (match e.descriptions.lookup lang_code with
         | some v => some v
         | none => e.descriptions.lookup "en") with
      | none => .error "KeyError"
      | some descr =>
        let base := pyDictInsert (pyDictInsert [] "label" (PyVal.str label))
          "description" (PyVal.str descr)
        .ok (projectClaims fetch lang_code entity_properties e.claims base)

/-! ### Entity linkers (location / organization)

The person linker is imported by the dispatcher but its source is not part
of the repository snapshot; it stays an opaque function parameter of the
dispatcher model. -/

/-- Dependencies of a concrete linker: the model of `get_qnumber` (the
exact-title lookup including the disambiguation-page check), the entity
data fetch, the full-text search (phrase to ranked `(title, snippet)`
hits), and the embedding similarity. -/
structure LinkerDeps where
  getQ : String → String → Except String String
  fetch : String → Fetched
  search : String → List (String × String)
  cosSim : String → String → ℚ

/-- Embedding of `get_location_qnumber` / `get_organization_qnumber`: take
the exact-match qid, fetch its record, and keep it only when the record is
an `item exposing one of the filter properties; every in-`try` failure
falls through to `-1`, while a raising fetch propagates (the `requests.get`
is outside the `try`). -/
def get_typed_qnumber (filterProps : List String) (deps : LinkerDeps)
    (wikiarticle wikisite : String) : Except String String :=
  match deps.getQ wikiarticle wikisite with
  | .error err => .error err
  | .ok qid =>
    match deps.fetch qid with
    | .raise => .error "requests.exceptions.ConnectionError"
    | .badStatus => .ok "-1"
    | .malformed => .ok "-1"
    | .ok e =>
      if e.type == "item" && filterProps.any (fun p => (e.claims.lookup p).isSome)
      then .ok qid else .ok "-1"

/-- Embedding of `LocationEntityLinker.location_entity_extraction`. -/
def location_entity_extraction (deps : LinkerDeps) (location_properties : List (String × String))
    (text entity : String) (start_char num_search_results context_window : ℕ)
    (lang_code : String) : Except String EntityInfo :=
  match get_typed_qnumber locationFilterProperties deps entity (lang_code ++ "wiki") with
  | .error err => .error err
  | .ok qid =>
    if qid ≠ "-1" then
      extract_wikidata_entity_info deps.fetch qid location_properties lang_code
    else
      match location_wikidata_search deps.fetch (deps.search entity) num_search_results with
      | .error err => .error err
      | .ok search_results =>
        match extract_context_by_words text start_char context_window with
        | .error err => .error err
        | .ok context =>
          if search_results = [] then .ok []
          else
            match context_entity_matching deps.cosSim context search_results with
            | .error err => .error err
            | .ok top_entity =>
              extract_wikidata_entity_info deps.fetch top_entity location_properties lang_code

/-- Embedding of `OrganizationEntityLinker.organization_entity_extraction`. -/
def organization_entity_extraction (deps : LinkerDeps)
    (organization_properties : List (String × String)) (text entity : String)
    (start_char num_search_results context_window : ℕ) (lang_code : String) :
    Except String EntityInfo :=
  match get_typed_qnumber organizationFilterProperties deps entity (lang_code ++ "wiki") with
  | .error err => .error err
  | .ok qid =>
    if qid ≠ "-1" then
      extract_wikidata_entity_info deps.fetch qid organization_properties lang_code
    else
      match organization_wikidata_search deps.fetch (deps.search entity) num_search_results with
      | .error err => .error err
      | .ok search_results =>
        match extract_context_by_words text start_char context_window with
        | .error err => .error err
        | .ok context =>
          if search_results = [] then .ok []
          else
            match context_entity_matching deps.cosSim context search_results with
            | .error err => .error err
            | .ok top_entity =>
              extract_wikidata_entity_info deps.fetch top_entity organization_properties
                lang_code

/-! ### Dispatcher -/

/-- Dependencies of `MultiEntityLinker`: the NLTK word tokenizer, the
stopword list, and the three per-type linkers (each mapping
`(text, entity, start_char, num_search_results, context_window,
lang_code)` to a result).  The person linker's source file is absent from
the repository snapshot, so all three are parameters here; for theorems
about concrete runs the location and organization slots are instantiated
with the embeddings above. -/
structure DispatchDeps where
  tokenize : String → List String
  stopwords : List String
  personF : String → String → ℕ → ℕ → ℕ → String → Except String EntityInfo
  organizationF : String → String → ℕ → ℕ → ℕ → String → Except String EntityInfo
  locationF : String → String → ℕ → ℕ → ℕ → String → Except String EntityInfo

/-- Embedding of `MultiEntityLinker.preprocess_entity_name`: tokenize the
label and strip a single leading stopword token; an empty tokenization
makes the `title_tokens[0]` read raise `IndexError`. -/
def preprocess_entity_name (tokenize : String → List String) (stopwords : List String)
    (entity_label : String) : Except String String :=
  match tokenize entity_label with
  | [] => .error "IndexError"
  | t :: ts =>
    if stopwords.contains (pyToLower t) then .ok (" ".intercalate ts)
    else .ok entity_label

/-- The `if`/`elif` chain of `extract_entities` routing a processed mention
to the matching linker; `none` when no branch matches (the loop body then
reads the stale `entity_info` local). -/
def dispatchCall (deps : DispatchDeps) (entity_type text processed_entity : String)
    (start_char num_search_results context_window : ℕ) (lang_code : String) :
    Option (Except String EntityInfo) :=
  if pyToLower entity_type == "per" then
    some (deps.personF text processed_entity start_char num_search_results context_window
      lang_code)
  else if pyToLower entity_type == "org" then
    some (deps.organizationF text processed_entity start_char num_search_results
      context_window lang_code)
  else if pyToLower entity_type == "loc" || pyToLower entity_type == "gpe" then
    some (deps.locationF text processed_entity start_char num_search_results context_window
      lang_code)
  else none

/-- The mention loop of `MultiEntityLinker.extract_entities`.  The second
loop argument is the last value bound to the `entity_info` local: a mention
with an unrecognized type tag still reaches `pprint(entity_info)`, printing
the stale value, or raising `NameError` when no earlier mention bound it.
The returned list is the ordered sequence of `(mention label, result)`
pairs the loop displays. -/
def extract_entities_loop (deps : DispatchDeps) (text : String)
    (num_search_results context_window : ℕ) (lang_code : String) :
    List (String × ℕ × String) → Option EntityInfo →
    Except String (List (String × EntityInfo))
  | [], _ => .ok []
  | (entity, start_char, entity_type) :: rest, lastInfo =>
    match preprocess_entity_name deps.tokenize deps.stopwords entity with
    | .error err => .error err
    | .ok processed =>
      if processed == "" then
        extract_entities_loop deps text num_search_results context_window lang_code rest
          lastInfo
      else
        match dispatchCall deps entity_type text processed start_char num_search_results
            context_window lang_code with
        | some (.error err) => .error err
        | some (.ok info) =>
          match extract_entities_loop deps text num_search_results context_window lang_code
              rest (some info) with
          | .error err => .error err
          | .ok pairs => .ok ((entity, info) :: pairs)
        | none =>
          match lastInfo with
          | none => .error "NameError"
          | some stale =>
            match extract_entities_loop deps text num_search_results context_window
                lang_code rest (some stale) with
            | .error err => .error err
            | .ok pairs => .ok ((entity, stale) :: pairs)

/-- Embedding of `MultiEntityLinker.extract_entities`.  The first component
of the `.ok` payload is the ordered sequence of `(mention, result)` pairs
the loop computes and prints; the second component is the value the Python
function returns to its caller — the function body has no `return`
statement, so this is always `none` (Python `None`). -/
def extract_entities (deps : DispatchDeps) (entity_dict : List (String × ℕ × String))
    (text : String) (num_search_results context_window : ℕ) (lang_code : String) :
    Except String (List (String × EntityInfo) × Option (List (String × EntityInfo))) :=
  match extract_entities_loop deps text num_search_results context_window lang_code
      entity_dict none with
  | .error err => .error err
  | .ok pairs => .ok (pairs, none)

/-- Whether a mention's label survives preprocessing with a non-empty
processed form — the guard under which the loop body actually dispatches. -/
def mentionProcessed (deps : DispatchDeps) (entity_label : String) : Bool :=
  match preprocess_entity_name deps.tokenize deps.stopwords entity_label with
  | .ok processed => processed ≠ ""
  | .error _ => false

/-! ### Helper lemmas -/

/-- Two members of a list that agree under an injective-on-the-list map
(expressed by nodup of the mapped list) are equal. -/
theorem eq_of_mem_map_nodup {α β : Type} {f : α → β} {l : List α}
    (hnd : (l.map f).Nodup) {a b : α} (ha : a ∈ l) (hb : b ∈ l) (hf : f a = f b) : a = b := by
  induction l with
  | nil => cases ha
  | cons x xs ih =>
    simp only [List.map_cons, List.nodup_cons] at hnd
    rcases List.mem_cons.mp ha with rfl | ha2
    · rcases List.mem_cons.mp hb with rfl | hb2
      · rfl
      · exact absurd (hf ▸ List.mem_map_of_mem f hb2) hnd.1
    · rcases List.mem_cons.mp hb with rfl | hb2
      · exact absurd (hf ▸ List.mem_map_of_mem f ha2) hnd.1
      · exact ih hnd.2 ha2 hb2

/-- A successful lookup designates an entry of the association list. -/
theorem mem_of_lookup_eq_some {α : Type} [BEq α] [LawfulBEq α] {l : List (α × String)}
    {k : α} {v : String} (h : l.lookup k = some v) : (k, v) ∈ l := by
  induction l with
  | nil => cases h
  | cons x xs ih =>
    simp only [List.lookup] at h
    by_cases hk : k == x.1
    · rw [hk] at h
      simp only at h
      cases h
      have hx : k = x.1 := eq_of_beq hk
      exact List.mem_cons.mpr (Or.inl (by rw [hx]))
    · rw [Bool.not_eq_true] at hk
      rw [hk] at h
      simp only at h
      exact List.mem_cons_of_mem x (ih h)

/-- Under a fetch that never raises, the qid filter succeeds and returns
exactly the qids accepted by `passes_filter`, in order. -/
theorem filter_qids_eq_filter (props : List String) (fetch : String → Fetched)
    (qids : List String) (h : ∀ q ∈ qids, fetch q ≠ Fetched.raise) :
    filter_qids props fetch qids = Except.ok (qids.filter (passes_filter props fetch)) := by
  induction qids with
  | nil => rfl
  | cons q rest ih =>
    have hq : fetch q ≠ Fetched.raise := h q (List.mem_cons_self q rest)
    have ih2 := ih (fun x hx => h x (List.mem_cons_of_mem q hx))
    cases hfq : fetch q with
    | raise => exact absurd hfq hq
    | badStatus =>
      simp only [filter_qids, hfq, ih2, List.filter_cons, passes_filter, if_neg,
        Bool.false_eq_true, reduceIte]
    | malformed =>
      simp only [filter_qids, hfq, ih2, List.filter_cons, passes_filter, if_neg,
        Bool.false_eq_true, reduceIte]
    | ok e =>
      have hpf : passes_filter props fetch q =
          (e.type == "item" && props.any fun p => (e.claims.lookup p).isSome) := by
        simp [passes_filter, hfq]
      simp only [filter_qids, hfq, ih2, List.filter_cons]
      rw [hpf]

/-- Every qid in a successful filter output satisfies `passes_filter`. -/
theorem mem_filter_qids_passes (props : List String) (fetch : String → Fetched) :
    ∀ (qids l : List String), filter_qids props fetch qids = Except.ok l →
    ∀ q ∈ l, passes_filter props fetch q = true := by
  intro qids
  induction qids with
  | nil =>
    intro l h q hql
    simp only [filter_qids] at h
    cases h
    cases hql
  | cons q0 rest ih =>
    intro l h q hql
    simp only [filter_qids] at h
    cases hfq : fetch q0 with
    | raise => rw [hfq] at h; cases h
    | badStatus => rw [hfq] at h; exact ih l h q hql
    | malformed => rw [hfq] at h; exact ih l h q hql
    | ok e =>
      rw [hfq] at h
      cases hrest : filter_qids props fetch rest with
      | error err => rw [hrest] at h; cases h
      | ok l2 =>
        rw [hrest] at h
        simp only at h
        cases h
        by_cases hc : (e.type == "item" && props.any fun p => (e.claims.lookup p).isSome) = true
        · rw [if_pos hc] at hql
          rcases List.mem_cons.mp hql with rfl | hmem
          · simp only [passes_filter, hfq]
            exact hc
          · exact ih l2 hrest q hmem
        · rw [if_neg hc] at hql
          exact ih l2 hrest q hql

/-- Every candidate in a successful search result passed the filter. -/
theorem wikidata_search_members_pass (props : List String) (fetch : String → Fetched)
    (sr : List (String × String)) (n : ℕ) (res : List (String × String × ℚ))
    (h : wikidata_search props fetch sr n = Except.ok res) :
    ∀ c ∈ res, passes_filter props fetch c.1 = true := by
  unfold wikidata_search at h
  cases hfl : filter_qids props fetch (snippetQidsOf sr n) with
  | error err => rw [hfl] at h; cases h
  | ok fl =>
    rw [hfl] at h
    simp only at h
    cases h
    intro c hc
    rcases List.mem_filterMap.mp hc with ⟨qs, _hqs, hf⟩
    by_cases hcont : fl.contains qs.1 = true
    · rw [if_pos hcont] at hf
      cases hf
      have hmem : qs.1 ∈ fl := by
        have : List.elem qs.1 fl = true := hcont
        exact (List.elem_iff).mp this
      exact mem_filter_qids_passes props fetch (snippetQidsOf sr n) fl hfl qs.1 hmem
    · rw [if_neg hcont] at hf
      cases hf

/-- C5: the spec requires that a `start_offset` beyond the end of the text
anchors context extraction to the last unit and still returns a context
string, for both granularities.  The code never assigns the anchor variable
in that situation and the subsequent read raises `UnboundLocalError`
(modelled as `.error`): with text `"ab cd"` (length 5) and `start_offset
= 6`, and with sentences `["Hi.", "Bye."]` of the text `"Hi. Bye."`
(length 8) and `start_offset = 9`, both functions fail instead of
anchoring to the last unit. -/
theorem C5_out_of_range_offset_crashes :
    extract_context_by_words "ab cd" 6 1 = Except.error "UnboundLocalError" ∧
    extract_context_by_words "ab cd" 6 0 = Except.error "UnboundLocalError" ∧
    extract_context_by_sentences ["Hi.", "Bye."] 9 1 = Except.error "UnboundLocalError" ∧
    extract_context_by_sentences ["Hi.", "Bye."] 9 0 = Except.error "UnboundLocalError" :=
  ⟨rfl, rfl, rfl, rfl⟩

/-- C6: the spec requires sentence-granularity extraction to concatenate
the selected sentences in their original order.  The code iterates the
clipped index `set` without sorting it, so the concatenation follows the
CPython set iteration order: with ten sentences of six characters each,
`start_offset = 50` anchors at sentence 8, the window-1 index set is
`{7, 8, 9}`, and an 8-slot CPython table iterates it as `[8, 9, 7]`,
producing `"Sent8.Sent9.Sent7."` instead of the in-order concatenation
`"Sent7.Sent8.Sent9."`. -/
theorem C6_sentence_context_out_of_order :
    extract_context_by_sentences
      ["Sent0.", "Sent1.", "Sent2.", "Sent3.", "Sent4.", "Sent5.", "Sent6.", "Sent7.",
        "Sent8.", "Sent9."] 50 1 = Except.ok "Sent8.Sent9.Sent7." ∧
    "Sent8.Sent9.Sent7." ≠ "Sent7.Sent8.Sent9." :=
  ⟨rfl, by decide⟩

/-- C9, counterexample to the claim as stated: a transport error — the
`requests.get` call itself raising — is not caught (the call sits outside
the `try` block) and propagates to the filter's caller instead of being
treated as "does not accept". -/
theorem C9_counterexample :
    filter_location_qids (fun _ => Fetched.raise) ["Q1"] =
      Except.error "requests.exceptions.ConnectionError" := rfl

/-- C9, amended: for a fetch whose calls return a response (never raise),
both qid filters succeed, returning exactly the qids accepted by
`passes_filter`; in particular any id whose lookup yields a non-success
status or a malformed body is excluded from the output rather than
propagated as an exception. -/
theorem C9_response_failures_excluded (fetch : String → Fetched) (qids : List String)
    (h : ∀ q ∈ qids, fetch q ≠ Fetched.raise) :
    (filter_location_qids fetch qids =
        Except.ok (qids.filter (passes_filter locationFilterProperties fetch)) ∧
      filter_organization_qids fetch qids =
        Except.ok (qids.filter (passes_filter organizationFilterProperties fetch))) ∧
    (∀ q, fetch q = Fetched.badStatus ∨ fetch q = Fetched.malformed →
      (∀ l, filter_location_qids fetch qids = Except.ok l → q ∉ l) ∧
      (∀ l, filter_organization_qids fetch qids = Except.ok l → q ∉ l)) := by
  have hfail : ∀ props q, fetch q = Fetched.badStatus ∨ fetch q = Fetched.malformed →
      passes_filter props fetch q = false := by
    intro props q hq
    rcases hq with hq | hq <;> simp [passes_filter, hq]
  refine ⟨⟨filter_qids_eq_filter _ fetch qids h, filter_qids_eq_filter _ fetch qids h⟩, ?_⟩
  intro q hq
  constructor
  · intro l hl hmem
    have heq := filter_qids_eq_filter locationFilterProperties fetch qids h
    cases heq.symm.trans hl
    have := List.of_mem_filter hmem
    rw [hfail locationFilterProperties q hq] at this
    cases this
  · intro l hl hmem
    have heq := filter_qids_eq_filter organizationFilterProperties fetch qids h
    cases heq.symm.trans hl
    have := List.of_mem_filter hmem
    rw [hfail organizationFilterProperties q hq] at this
    cases this

/-- Witness for the amended C9 theorem at a concrete fetch: the id with a
non-success status is excluded and no exception is raised. -/
theorem C9_witness :
    filter_location_qids
        (fun q => if q == "Q1" then Fetched.badStatus
          else Fetched.ok ⟨"item", [], [], [("P37", [])]⟩) ["Q1", "Q2"] =
      Except.ok (["Q1", "Q2"].filter (passes_filter locationFilterProperties
        (fun q => if q == "Q1" then Fetched.badStatus
          else Fetched.ok ⟨"item", [], [], [("P37", [])]⟩))) :=
  (C9_response_failures_excluded
    (fun q => if q == "Q1" then Fetched.badStatus
      else Fetched.ok ⟨"item", [], [], [("P37", [])]⟩) ["Q1", "Q2"] (by decide)).1.1

/-- C7: every candidate id present in the CandidateSet returned by
`location_wikidata_search` or `organization_wikidata_search` has passed the
active type's candidate filter; an id rejected by the filter never reaches
similarity scoring. -/
theorem C7_search_results_passed_filter (fetch : String → Fetched)
    (sr : List (String × String)) (n : ℕ) :
    (∀ res, location_wikidata_search fetch sr n = Except.ok res →
      ∀ c ∈ res, passes_filter locationFilterProperties fetch c.1 = true) ∧
    (∀ res, organization_wikidata_search fetch sr n = Except.ok res →
      ∀ c ∈ res, passes_filter organizationFilterProperties fetch c.1 = true) :=
  ⟨fun res h => wikidata_search_members_pass locationFilterProperties fetch sr n res h,
   fun res h => wikidata_search_members_pass organizationFilterProperties fetch sr n res h⟩

/-- Witness for C7 at a concrete search: the surviving candidate passed the
location filter. -/
theorem C7_witness :
    passes_filter locationFilterProperties
      (fun q => if q == "Q1" then Fetched.ok ⟨"item", [], [], [("P37", [])]⟩
        else Fetched.ok ⟨"item", [], [], []⟩) "Q1" = true := by
  have h : location_wikidata_search
      (fun q => if q == "Q1" then Fetched.ok ⟨"item", [], [], [("P37", [])]⟩
        else Fetched.ok ⟨"item", [], [], []⟩) [("Q1", "s1"), ("Q2", "s2")] 2 =
      Except.ok [("Q1", "s1", 1)] := by
    simp [location_wikidata_search, wikidata_search, snippetQidsOf, resultsInformationOf,
      pyDictInsert, linspace, List.range_succ, List.indexOf, List.findIdx, List.findIdx.go,
      filter_qids, locationFilterProperties]
  exact (C7_search_results_passed_filter
      (fun q => if q == "Q1" then Fetched.ok ⟨"item", [], [], [("P37", [])]⟩
        else Fetched.ok ⟨"item", [], [], []⟩) [("Q1", "s1"), ("Q2", "s2")] 2).1
    [("Q1", "s1", 1)] h ("Q1", "s1", 1) (List.mem_singleton.mpr rfl)

/-- C10: a non-success HTTP status while fetching a record during
projection makes `get_entity_info` return `None`, upon which
`extract_wikidata_entity_info` returns the empty dictionary — the same
empty value that `location_entity_extraction` returns on the unresolvable
path (exact miss and empty search), so the two outcomes are
indistinguishable to the caller. -/
theorem C10_transport_failure_empty_result (fetch : String → Fetched) (qid : String)
    (props : List (String × String)) (lang : String) (h : fetch qid = Fetched.badStatus) :
    get_entity_info fetch qid = Except.ok none ∧
    extract_wikidata_entity_info fetch qid props lang = Except.ok [] ∧
    (∀ (deps : LinkerDeps) (locProps : List (String × String)) (text entity : String)
        (s n w : ℕ) (ctx : String),
      deps.getQ entity (lang ++ "wiki") = Except.ok "-1" →
      deps.fetch "-1" ≠ Fetched.raise →
      deps.search entity = [] →
      extract_context_by_words text s w = Except.ok ctx →
      location_entity_extraction deps locProps text entity s n w lang = Except.ok []) := by
  refine ⟨by simp [get_entity_info, h], by simp [extract_wikidata_entity_info, get_entity_info, h], ?_⟩
  intro deps locProps text entity s n w ctx hq hnr hs hctx
  have hgt : get_typed_qnumber locationFilterProperties deps entity (lang ++ "wiki") =
      Except.ok "-1" := by
    unfold get_typed_qnumber
    rw [hq]
    cases hf : deps.fetch "-1" with
    | raise => exact absurd hf hnr
    | badStatus => simp [hf]
    | malformed => simp [hf]
    | ok e => simp [hf]
  have hsearch : location_wikidata_search deps.fetch ([] : List (String × String)) n =
      Except.ok [] := by
    simp [location_wikidata_search, wikidata_search, snippetQidsOf, resultsInformationOf,
      List.take_nil, filter_qids]
  unfold location_entity_extraction
  rw [hgt]
  simp only [ne_eq, not_true_eq_false, if_false, reduceIte, hs, hsearch, hctx]

/-- Witness for C10 at a concrete fetch, qid and linker dependencies. -/
theorem C10_witness :
    get_entity_info (fun _ => Fetched.badStatus) "Q7" = Except.ok none ∧
    extract_wikidata_entity_info (fun _ => Fetched.badStatus) "Q7"
      [("P31", "instance")] "en" = Except.ok [] ∧
    location_entity_extraction
      ⟨fun _ _ => Except.ok "-1", fun _ => Fetched.badStatus, fun _ => [], fun _ _ => 0⟩
      [("P31", "instance")] "a b" "x" 0 5 0 "en" = Except.ok [] := by
  have := C10_transport_failure_empty_result (fun _ => Fetched.badStatus) "Q7"
    [("P31", "instance")] "en" rfl
  exact ⟨this.1, this.2.1,
    this.2.2 ⟨fun _ _ => Except.ok "-1", fun _ => Fetched.badStatus, fun _ => [], fun _ _ => 0⟩
      [("P31", "instance")] "a b" "x" 0 5 0 "a" rfl (by decide) rfl rfl⟩

/-- Keys present after a Python dict insertion are the old keys plus the
inserted one. -/
theorem mem_keys_pyDictInsert {α : Type} {x : String} :
    ∀ {d : List (String × α)} {k : String} {v : α},
      x ∈ (pyDictInsert d k v).map Prod.fst → x ∈ d.map Prod.fst ∨ x = k := by
  intro d
  induction d with
  | nil =>
    intro k v hx
    simp only [pyDictInsert, List.map_cons, List.map_nil] at hx
    right
    simpa using hx
  | cons kv rest ih =>
    intro k v hx
    by_cases hk : kv.1 = k
    · simp only [pyDictInsert, beq_iff_eq, if_pos hk, List.map_cons] at hx
      rcases List.mem_cons.mp hx with rfl | hx2
      · right; rfl
      · left
        exact List.mem_cons_of_mem kv.1 hx2
    · simp only [pyDictInsert, beq_iff_eq, if_neg hk, List.map_cons] at hx
      rcases List.mem_cons.mp hx with rfl | hx2
      · left
        exact List.mem_cons_self _ _
      · rcases ih hx2 with h | h
        · left
          exact List.mem_cons_of_mem kv.1 h
        · right
          exact h

/-- Inserting into a Python dict keeps the keys pairwise distinct. -/
theorem pyDictInsert_keys_nodup {α : Type} {d : List (String × α)}
    (hd : (d.map Prod.fst).Nodup) (k : String) (v : α) :
    ((pyDictInsert d k v).map Prod.fst).Nodup := by
  induction d with
  | nil => simp [pyDictInsert]
  | cons kv rest ih =>
    simp only [List.map_cons, List.nodup_cons] at hd
    by_cases hk : kv.1 = k
    · simp only [pyDictInsert, beq_iff_eq, if_pos hk, List.map_cons, List.nodup_cons]
      exact ⟨hk ▸ hd.1, hd.2⟩
    · simp only [pyDictInsert, beq_iff_eq, if_neg hk, List.map_cons, List.nodup_cons]
      refine ⟨?_, ih hd.2⟩
      intro hmem
      rcases mem_keys_pyDictInsert hmem with h | h
      · exact hd.1 h
      · exact hk h

/-- Python dict insertion grows the entry list by at most one. -/
theorem pyDictInsert_length_le {α : Type} (d : List (String × α)) (k : String) (v : α) :
    (pyDictInsert d k v).length ≤ d.length + 1 := by
  induction d with
  | nil => simp [pyDictInsert]
  | cons kv rest ih =>
    by_cases hk : kv.1 = k
    · simp [pyDictInsert, beq_iff_eq, hk]
    · simp only [pyDictInsert, beq_iff_eq, if_neg hk, List.length_cons]
      omega

/-- The `results_information` dict accumulated over any prefix has pairwise
distinct keys. -/
theorem resultsInformation_foldl_keys_nodup (l : List (String × String)) :
    ∀ d : List (String × String), (d.map Prod.fst).Nodup →
    (((l.foldl (fun d ts => if ts.2 == "" then d else pyDictInsert d ts.1 ts.2) d)).map
      Prod.fst).Nodup := by
  induction l with
  | nil => intro d hd; exact hd
  | cons ts rest ih =>
    intro d hd
    simp only [List.foldl_cons]
    by_cases hs : ts.2 == ""
    · rw [if_pos hs]
      exact ih d hd
    · rw [if_neg hs]
      exact ih _ (pyDictInsert_keys_nodup hd ts.1 ts.2)

/-- The qids of `results_information` are pairwise distinct. -/
theorem snippetQids_nodup (sr : List (String × String)) (n : ℕ) :
    (snippetQidsOf sr n).Nodup :=
  resultsInformation_foldl_keys_nodup (sr.take n) [] List.nodup_nil

/-- Length bound for the accumulated dict. -/
theorem resultsInformation_foldl_length (l : List (String × String)) :
    ∀ d : List (String × String),
    ((l.foldl (fun d ts => if ts.2 == "" then d else pyDictInsert d ts.1 ts.2) d)).length ≤
      d.length + l.length := by
  induction l with
  | nil => intro d; simp
  | cons ts rest ih =>
    intro d
    simp only [List.foldl_cons, List.length_cons]
    by_cases hs : ts.2 == ""
    · rw [if_pos hs]
      calc _ ≤ d.length + rest.length := ih d
        _ ≤ d.length + (rest.length + 1) := by omega
    · rw [if_neg hs]
      calc _ ≤ (pyDictInsert d ts.1 ts.2).length + rest.length := ih _
        _ ≤ d.length + 1 + rest.length := by
            have := pyDictInsert_length_le d ts.1 ts.2
            omega
        _ = d.length + (rest.length + 1) := by omega

/-- There are at most `num_results` snippet-bearing candidates. -/
theorem snippetQids_length_le (sr : List (String × String)) (n : ℕ) :
    (snippetQidsOf sr n).length ≤ n := by
  unfold snippetQidsOf resultsInformationOf
  rw [List.length_map]
  calc _ ≤ 0 + (sr.take n).length := resultsInformation_foldl_length (sr.take n) []
    _ ≤ n := by
        have := List.length_take n sr
        omega

/-- The linear interpolation of `np.linspace(1, 0.01, n)` is strictly
decreasing on the index range `[0, n)`. -/
theorem linspace_getD_strictAnti (n i j : ℕ) (hij : i < j) (hj : j < n) :
    (linspace 1 (1/100) n).getD j 0 < (linspace 1 (1/100) n).getD i 0 := by
  have hn2 : 2 ≤ n := by omega
  have hn0 : ¬ n = 0 := by omega
  have hn1 : ¬ n = 1 := by omega
  have hlen : (linspace 1 (1/100) n).length = n := by
    simp only [linspace, if_neg hn0, if_neg hn1, List.length_map, List.length_range]
  have hi : i < n := lt_trans hij hj
  rw [List.getD_eq_getElem _ _ (by omega : j < (linspace 1 (1/100) n).length),
    List.getD_eq_getElem _ _ (by omega : i < (linspace 1 (1/100) n).length)]
  have hval : ∀ (k : ℕ) (hk : k < (linspace 1 (1/100) n).length),
      (linspace 1 (1/100) n)[k] = 1 + (k : ℚ) * ((1/100 - 1) / ((n : ℚ) - 1)) := by
    intro k hk
    have hk2 : k < n := by omega
    simp only [linspace, if_neg hn0, if_neg hn1]
    rw [List.getElem_map]
    rw [List.getElem_range]
    ring
  rw [hval j (by omega), hval i (by omega)]
  have hcneg : (1/100 - 1 : ℚ) / ((n : ℚ) - 1) < 0 := by
    apply div_neg_of_neg_of_pos
    · norm_num
    · have : (2 : ℚ) ≤ (n : ℚ) := by exact_mod_cast hn2
      linarith
  have hcast : (i : ℚ) < (j : ℚ) := by exact_mod_cast hij
  have := mul_lt_mul_of_neg_right hcast hcneg
  linarith

/-- A `filterMap` whose function is an if-guarded `some` is a `map` after a
`filter`. -/
theorem filterMap_if_eq_map_filter {α β : Type} (p : α → Bool) (g : α → β) (l : List α) :
    l.filterMap (fun a => if p a then some (g a) else none) = (l.filter p).map g := by
  induction l with
  | nil => rfl
  | cons x xs ih =>
    by_cases hx : p x
    · simp [List.filterMap_cons, List.filter_cons, hx, ih]
    · simp [List.filterMap_cons, List.filter_cons, hx, ih]

/-- Weight formula for every member of a successful search result: the
weight is read off `np.linspace(1, 0.01, num_results)` at the candidate's
index among the snippet-bearing qids. -/
theorem wikidata_search_weight_formula (filterProps : List String) (fetch : String → Fetched)
    (sr : List (String × String)) (n : ℕ) (res : List (String × String × ℚ))
    (h : wikidata_search filterProps fetch sr n = Except.ok res) :
    ∀ c ∈ res,
      c.2.2 = (linspace 1 (1/100) n).getD (List.indexOf c.1 (snippetQidsOf sr n)) 0 ∧
      c.1 ∈ snippetQidsOf sr n := by
  unfold wikidata_search at h
  cases hfl : filter_qids filterProps fetch (snippetQidsOf sr n) with
  | error err => rw [hfl] at h; cases h
  | ok fl =>
    rw [hfl] at h
    simp only at h
    cases h
    intro c hc
    rcases List.mem_filterMap.mp hc with ⟨qs, hqs, hf⟩
    by_cases hcont : fl.contains qs.1 = true
    · rw [if_pos hcont] at hf
      cases hf
      exact ⟨rfl, List.mem_map_of_mem Prod.fst hqs⟩
    · rw [if_neg hcont] at hf
      cases hf

/-- Successful search results have strictly decreasing weights along the
result order. -/
theorem wikidata_search_weights_strictAnti (filterProps : List String)
    (fetch : String → Fetched) (sr : List (String × String)) (n : ℕ)
    (res : List (String × String × ℚ))
    (h : wikidata_search filterProps fetch sr n = Except.ok res) :
    res.Pairwise (fun a b => b.2.2 < a.2.2) := by
  unfold wikidata_search at h
  cases hfl : filter_qids filterProps fetch (snippetQidsOf sr n) with
  | error err => rw [hfl] at h; cases h
  | ok fl =>
    rw [hfl] at h
    simp only at h
    cases h
    rw [filterMap_if_eq_map_filter (fun qs : String × String => fl.contains qs.1)
      (fun qs : String × String => (qs.1, qs.2, (linspace 1 (1/100) n).getD
        (List.indexOf qs.1 (snippetQidsOf sr n)) 0))]
    rw [List.pairwise_map]
    refine List.Pairwise.sublist (List.filter_sublist _) ?_
    rw [List.pairwise_iff_getElem]
    intro i j hi hj hij
    have hriLen : (resultsInformationOf sr n).length = (snippetQidsOf sr n).length := by
      unfold snippetQidsOf
      rw [List.length_map]
    have hkey : ∀ (k : ℕ) (hk : k < (resultsInformationOf sr n).length),
        List.indexOf (resultsInformationOf sr n)[k].1 (snippetQidsOf sr n) = k := by
      intro k hk
      have hk2 : k < (snippetQidsOf sr n).length := by omega
      have : (resultsInformationOf sr n)[k].1 = (snippetQidsOf sr n)[k] := by
        unfold snippetQidsOf
        rw [List.getElem_map]
      rw [this]
      exact List.indexOf_getElem (snippetQids_nodup sr n) k hk2
    simp only [hkey i hi, hkey j hj]
    have hjn : j < n := by
      have := snippetQids_length_le sr n
      omega
    exact linspace_getD_strictAnti n i j hij hjn

/-- C4, counterexample to the claim as stated: with search hits
`[("QA", ""), ("QB", "x")]` and `result_count = 2`, the empty-snippet hit
`QA` is discarded before ranks are assigned, so the surviving candidate
`QB` — whose original search rank is 1 (0-based) — receives weight
`linspace[0] = 1.0` rather than the value `linspace[1] = 0.01` that linear
interpolation at its original search rank would give. -/
theorem C4_counterexample :
    location_wikidata_search (fun _ => Fetched.ok ⟨"item", [], [], [("P37", [])]⟩)
      [("QA", ""), ("QB", "x")] 2 = Except.ok [("QB", "x", 1)] ∧
    (linspace 1 (1/100) 2).getD 1 0 = 1/100 ∧
    (1 : ℚ) ≠ 1/100 := by
  refine ⟨?_, ?_, by norm_num⟩
  · simp [location_wikidata_search, wikidata_search, snippetQidsOf, resultsInformationOf,
      pyDictInsert, linspace, List.range_succ, List.indexOf, List.findIdx, List.findIdx.go,
      filter_qids, locationFilterProperties]
  · simp [linspace, List.range_succ]
    norm_num

/-- C4, amended: each surviving candidate's prior weight is obtained by
linear interpolation from 1.0 down to 0.01 over the `n` originally
requested slots, indexed by the candidate's rank among the snippet-bearing
search hits (not its original search rank: hits whose snippet is empty are
discarded before ranks are assigned); the weights of surviving candidates
are strictly decreasing along the result order and do not depend on which
candidates were removed by the type filter.  `location_wikidata_search`
and `organization_wikidata_search` are the two instances of
`wikidata_search`. -/
theorem C4_rank_weights (fetch : String → Fetched) (sr : List (String × String)) (n : ℕ) :
    (∀ res, location_wikidata_search fetch sr n = Except.ok res →
      (∀ c ∈ res,
        c.2.2 = (linspace 1 (1/100) n).getD (List.indexOf c.1 (snippetQidsOf sr n)) 0 ∧
        List.indexOf c.1 (snippetQidsOf sr n) < n) ∧
      res.Pairwise (fun a b => b.2.2 < a.2.2)) ∧
    (∀ res, organization_wikidata_search fetch sr n = Except.ok res →
      (∀ c ∈ res,
        c.2.2 = (linspace 1 (1/100) n).getD (List.indexOf c.1 (snippetQidsOf sr n)) 0 ∧
        List.indexOf c.1 (snippetQidsOf sr n) < n) ∧
      res.Pairwise (fun a b => b.2.2 < a.2.2)) ∧
    (∀ (filterProps : List String) (fetch2 : String → Fetched) res res2,
      wikidata_search filterProps fetch sr n = Except.ok res →
      wikidata_search filterProps fetch2 sr n = Except.ok res2 →
      ∀ c ∈ res, ∀ c2 ∈ res2, c.1 = c2.1 → c.2.2 = c2.2.2) := by
  have hpart : ∀ (props : List String) res,
      wikidata_search props fetch sr n = Except.ok res →
      (∀ c ∈ res,
        c.2.2 = (linspace 1 (1/100) n).getD (List.indexOf c.1 (snippetQidsOf sr n)) 0 ∧
        List.indexOf c.1 (snippetQidsOf sr n) < n) ∧
      res.Pairwise (fun a b => b.2.2 < a.2.2) := by
    intro props res h
    constructor
    · intro c hc
      rcases wikidata_search_weight_formula props fetch sr n res h c hc with ⟨hw, hmem⟩
      refine ⟨hw, ?_⟩
      have h1 : List.indexOf c.1 (snippetQidsOf sr n) < (snippetQidsOf sr n).length :=
        List.indexOf_lt_length.mpr hmem
      have h2 := snippetQids_length_le sr n
      omega
    · exact wikidata_search_weights_strictAnti props fetch sr n res h
  refine ⟨hpart locationFilterProperties, hpart organizationFilterProperties, ?_⟩
  intro filterProps fetch2 res res2 h h2 c hc c2 hc2 hkey
  rcases wikidata_search_weight_formula filterProps fetch sr n res h c hc with ⟨hw, _⟩
  rcases wikidata_search_weight_formula filterProps fetch2 sr n res2 h2 c2 hc2 with ⟨hw2, _⟩
  rw [hw, hw2, hkey]

/-- Witness for the amended C4 theorem at a concrete search with two
snippet-bearing hits: the returned weights decrease strictly along the
result. -/
theorem C4_witness :
    ([("Q1", "s1", (1 : ℚ)), ("Q2", "s2", 1/100)] :
      List (String × String × ℚ)).Pairwise (fun a b => b.2.2 < a.2.2) :=
  ((C4_rank_weights (fun _ => Fetched.ok ⟨"item", [], [], [("P37", [])]⟩)
      [("Q1", "s1"), ("Q2", "s2")] 2).1 [("Q1", "s1", 1), ("Q2", "s2", 1/100)]
    (by
      simp [location_wikidata_search, wikidata_search, snippetQidsOf, resultsInformationOf,
        pyDictInsert, linspace, List.range_succ, List.indexOf, List.findIdx, List.findIdx.go,
        filter_qids, locationFilterProperties]
      norm_num)).2

/-- The fold of `max` dominates its seed and every list element, and is
one of them. -/
theorem foldl_max_spec (xs : List ℚ) : ∀ x : ℚ,
    xs.foldl max x ∈ x :: xs ∧ x ≤ xs.foldl max x ∧ ∀ y ∈ xs, y ≤ xs.foldl max x := by
  induction xs with
  | nil =>
    intro x
    simp
  | cons z zs ih =>
    intro x
    simp only [List.foldl_cons]
    rcases ih (max x z) with ⟨hmem, hle, hall⟩
    refine ⟨?_, le_trans (le_max_left x z) hle, ?_⟩
    · rcases List.mem_cons.mp hmem with h | h
      · rcases max_choice x z with hh | hh
        · rw [h, hh]
          exact List.mem_cons_self x (z :: zs)
        · rw [h, hh]
          exact List.mem_cons_of_mem x (List.mem_cons_self z zs)
      · exact List.mem_cons_of_mem x (List.mem_cons_of_mem z h)
    · intro y hy
      rcases List.mem_cons.mp hy with rfl | hy2
      · exact le_trans (le_max_right x y) hle
      · exact hall y hy2

/-- The maximum returned by `listMax` is an element dominating the list. -/
theorem listMax_spec (l : List ℚ) (m : ℚ) (h : listMax l = some m) :
    m ∈ l ∧ ∀ x ∈ l, x ≤ m := by
  cases l with
  | nil => cases h
  | cons x xs =>
    simp only [listMax, Option.some_inj] at h
    rcases foldl_max_spec xs x with ⟨hmem, hle, hall⟩
    rw [h] at hmem hle hall
    refine ⟨hmem, ?_⟩
    intro y hy
    rcases List.mem_cons.mp hy with rfl | hy2
    · exact hle
    · exact hall y hy2

/-- `listMax` is invariant under permutation. -/
theorem listMax_perm (l1 l2 : List ℚ) (h : l1.Perm l2) : listMax l1 = listMax l2 := by
  cases hl1 : l1 with
  | nil =>
    rw [hl1] at h
    rw [h.nil_eq]
  | cons x xs =>
    cases hl2 : l2 with
    | nil =>
      rw [hl1, hl2] at h
      exact absurd h.eq_nil (List.cons_ne_nil x xs)
    | cons y ys =>
      rw [hl1, hl2] at h
      cases hm1 : listMax (x :: xs) with
      | none => simp [listMax] at hm1
      | some m1 =>
        cases hm2 : listMax (y :: ys) with
        | none => simp [listMax] at hm2
        | some m2 =>
          rcases listMax_spec _ m1 hm1 with ⟨hmem1, hall1⟩
          rcases listMax_spec _ m2 hm2 with ⟨hmem2, hall2⟩
          have h12 : m1 ≤ m2 := hall2 m1 (h.mem_iff.mp hmem1)
          have h21 : m2 ≤ m1 := hall1 m2 (h.mem_iff.mpr hmem2)
          rw [le_antisymm h12 h21]

/-- Elements strictly before the first occurrence index differ from the
sought value. -/
theorem getElem_ne_of_lt_indexOf {α : Type} [DecidableEq α] :
    ∀ (l : List α) (a : α) (j : ℕ) (hj : j < l.length),
      j < List.indexOf a l → l[j] ≠ a
  | [], _, j, hj, _ => by cases hj
  | x :: xs, a, j, hj, hlt => by
    by_cases hx : x = a
    · rw [List.indexOf_cons, beq_iff_eq.mpr hx] at hlt
      simp at hlt
    · cases j with
      | zero =>
        simpa using hx
      | succ k =>
        rw [List.indexOf_cons] at hlt
        have hne : (x == a) = false := beq_eq_false_iff_ne.mpr hx
        rw [hne] at hlt
        simp only [cond_false] at hlt
        have hk : k < xs.length := by
          simp only [List.length_cons] at hj
          omega
        have := getElem_ne_of_lt_indexOf xs a k hk (by omega)
        simpa using this

/-- Characterization of the shared argmax selection of both matchers: the
selected position attains the maximum weighted score, every position is
dominated by it, and every strictly earlier position scores strictly
less. -/
theorem argmax_select_spec {α : Type} (sc : α → ℚ) (nm : α → String) (l : List α)
    (m : ℚ) (hm : listMax (l.map sc) = some m) :
    ∃ (i : ℕ) (hi : i < l.length),
      (l.map nm).getD (List.indexOf m (l.map sc)) "" = nm l[i] ∧
      sc l[i] = m ∧
      (∀ (j : ℕ) (_hj : j < l.length), sc l[j] ≤ m) ∧
      (∀ (j : ℕ) (_hj : j < l.length), j < i → sc l[j] < m) := by
  rcases listMax_spec _ m hm with ⟨hmem, hall⟩
  have hidx : List.indexOf m (l.map sc) < (l.map sc).length :=
    List.indexOf_lt_length.mpr hmem
  have hlen : (l.map sc).length = l.length := List.length_map l sc
  refine ⟨List.indexOf m (l.map sc), by omega, ?_, ?_, ?_, ?_⟩
  · rw [List.getD_eq_getElem _ _ (by rw [List.length_map]; omega)]
    rw [List.getElem_map]
  · have hg := List.getElem_indexOf hidx
    rw [List.getElem_map] at hg
    exact hg
  · intro j hj
    refine hall (sc l[j]) ?_
    exact List.mem_map_of_mem sc (l.getElem_mem hj)
  · intro j hj hji
    have hj2 : j < (l.map sc).length := by omega
    have hne : (l.map sc)[j] ≠ m :=
      getElem_ne_of_lt_indexOf (l.map sc) m j hj2 hji
    rw [List.getElem_map] at hne
    exact lt_of_le_of_ne (hall (sc l[j]) (List.mem_map_of_mem sc (l.getElem_mem hj))) hne

/-- A nonempty score list has a maximum. -/
theorem listMax_isSome (l : List ℚ) (h : l ≠ []) : ∃ m, listMax l = some m := by
  cases l with
  | nil => exact absurd rfl h
  | cons x xs => exact ⟨xs.foldl max x, rfl⟩

/-- Structural characterization of `context_entity_matching` on a nonempty
candidate list. -/
theorem context_entity_matching_spec (cosSim : String → String → ℚ) (context : String)
    (l : List (String × String × ℚ)) (hne : l ≠ []) :
    ∃ (i : ℕ) (hi : i < l.length),
      context_entity_matching cosSim context l = Except.ok l[i].1 ∧
      (∀ (j : ℕ) (_hj : j < l.length),
        cosSim context l[j].2.1 * l[j].2.2 ≤ cosSim context l[i].2.1 * l[i].2.2) ∧
      (∀ (j : ℕ) (_hj : j < l.length), j < i →
        cosSim context l[j].2.1 * l[j].2.2 < cosSim context l[i].2.1 * l[i].2.2) := by
  have hmapne : l.map (fun c => cosSim context c.2.1 * c.2.2) ≠ [] := by
    intro he
    exact hne (List.map_eq_nil_iff.mp he)
  rcases listMax_isSome _ hmapne with ⟨m, hm⟩
  rcases argmax_select_spec (fun c => cosSim context c.2.1 * c.2.2) Prod.fst l m hm with
    ⟨i, hi, hsel, hscm, hle, hlt⟩
  refine ⟨i, hi, ?_, ?_, ?_⟩
  · simp only [context_entity_matching, hm]
    rw [hsel]
  · intro j hj
    rw [hscm]
    exact hle j hj
  · intro j hj hji
    rw [hscm]
    exact hlt j hj hji

/-- Structural characterization of `entity_label_matching` on a nonempty
candidate list. -/
theorem entity_label_matching_spec (cosSim : String → String → ℚ) (entity_label : String)
    (l : List (String × ℚ)) (hne : l ≠ []) :
    ∃ (i : ℕ) (hi : i < l.length),
      entity_label_matching cosSim entity_label l = Except.ok l[i].1 ∧
      (∀ (j : ℕ) (_hj : j < l.length),
        cosSim entity_label l[j].1 * l[j].2 ≤ cosSim entity_label l[i].1 * l[i].2) ∧
      (∀ (j : ℕ) (_hj : j < l.length), j < i →
        cosSim entity_label l[j].1 * l[j].2 < cosSim entity_label l[i].1 * l[i].2) := by
  have hmapne : l.map (fun c => cosSim entity_label c.1 * c.2) ≠ [] := by
    intro he
    exact hne (List.map_eq_nil_iff.mp he)
  rcases listMax_isSome _ hmapne with ⟨m, hm⟩
  rcases argmax_select_spec (fun c => cosSim entity_label c.1 * c.2) Prod.fst l m hm with
    ⟨i, hi, hsel, hscm, hle, hlt⟩
  refine ⟨i, hi, ?_, ?_, ?_⟩
  · simp only [entity_label_matching, hm]
    rw [hsel]
  · intro j hj
    rw [hscm]
    exact hle j hj
  · intro j hj hji
    rw [hscm]
    exact hlt j hj hji

/-- C8: with pairwise distinct weighted scores, `context_entity_matching`
and `entity_label_matching` return the same winning candidate under any
insertion order of the candidate set, and in general (ties included) the
returned candidate is the first one in iteration order attaining the
maximum weighted score: it dominates every candidate and strictly exceeds
every earlier one. -/
theorem C8_matching_order_invariant :
    (∀ (cosSim : String → String → ℚ) (context : String)
        (l1 l2 : List (String × String × ℚ)),
      l1.Perm l2 → l1 ≠ [] →
      (l1.map (fun c => cosSim context c.2.1 * c.2.2)).Nodup →
      context_entity_matching cosSim context l1 = context_entity_matching cosSim context l2) ∧
    (∀ (cosSim : String → String → ℚ) (entity_label : String)
        (l1 l2 : List (String × ℚ)),
      l1.Perm l2 → l1 ≠ [] →
      (l1.map (fun c => cosSim entity_label c.1 * c.2)).Nodup →
      entity_label_matching cosSim entity_label l1 =
        entity_label_matching cosSim entity_label l2) ∧
    (∀ (cosSim : String → String → ℚ) (context : String)
        (l : List (String × String × ℚ)), l ≠ [] →
      ∃ (i : ℕ) (_hi : i < l.length),
        context_entity_matching cosSim context l = Except.ok (l.getD i default).1 ∧
        (∀ (j : ℕ), j < l.length →
          cosSim context (l.getD j default).2.1 * (l.getD j default).2.2 ≤
            cosSim context (l.getD i default).2.1 * (l.getD i default).2.2) ∧
        (∀ (j : ℕ), j < l.length → j < i →
          cosSim context (l.getD j default).2.1 * (l.getD j default).2.2 <
            cosSim context (l.getD i default).2.1 * (l.getD i default).2.2)) ∧
    (∀ (cosSim : String → String → ℚ) (entity_label : String)
        (l : List (String × ℚ)), l ≠ [] →
      ∃ (i : ℕ) (_hi : i < l.length),
        entity_label_matching cosSim entity_label l = Except.ok (l.getD i default).1 ∧
        (∀ (j : ℕ), j < l.length →
          cosSim entity_label (l.getD j default).1 * (l.getD j default).2 ≤
            cosSim entity_label (l.getD i default).1 * (l.getD i default).2) ∧
        (∀ (j : ℕ), j < l.length → j < i →
          cosSim entity_label (l.getD j default).1 * (l.getD j default).2 <
            cosSim entity_label (l.getD i default).1 * (l.getD i default).2)) := by
  refine ⟨?_, ?_, ?_, ?_⟩
  · intro cosSim context l1 l2 hp hne hnd
    have hne2 : l2 ≠ [] := by
      intro he
      rw [he] at hp
      exact hne hp.eq_nil
    rcases context_entity_matching_spec cosSim context l1 hne with ⟨i1, hi1, heq1, hle1, _⟩
    rcases context_entity_matching_spec cosSim context l2 hne2 with ⟨i2, hi2, heq2, hle2, _⟩
    have hmem1 : l1[i1] ∈ l1 := l1.getElem_mem hi1
    have hmem2 : l2[i2] ∈ l1 := hp.mem_iff.mpr (l2.getElem_mem hi2)
    have hsc21 : cosSim context l2[i2].2.1 * l2[i2].2.2 ≤
        cosSim context l1[i1].2.1 * l1[i1].2.2 := by
      rcases List.mem_iff_getElem.mp hmem2 with ⟨j, hj, hjeq⟩
      have := hle1 j hj
      rw [hjeq] at this
      exact this
    have hsc12 : cosSim context l1[i1].2.1 * l1[i1].2.2 ≤
        cosSim context l2[i2].2.1 * l2[i2].2.2 := by
      have hmem12 : l1[i1] ∈ l2 := hp.mem_iff.mp hmem1
      rcases List.mem_iff_getElem.mp hmem12 with ⟨j, hj, hjeq⟩
      have := hle2 j hj
      rw [hjeq] at this
      exact this
    have heqel : l1[i1] = l2[i2] :=
      eq_of_mem_map_nodup hnd hmem1 hmem2 (le_antisymm hsc12 hsc21)
    rw [heq1, heq2, heqel]
  · intro cosSim entity_label l1 l2 hp hne hnd
    have hne2 : l2 ≠ [] := by
      intro he
      rw [he] at hp
      exact hne hp.eq_nil
    rcases entity_label_matching_spec cosSim entity_label l1 hne with ⟨i1, hi1, heq1, hle1, _⟩
    rcases entity_label_matching_spec cosSim entity_label l2 hne2 with ⟨i2, hi2, heq2, hle2, _⟩
    have hmem1 : l1[i1] ∈ l1 := l1.getElem_mem hi1
    have hmem2 : l2[i2] ∈ l1 := hp.mem_iff.mpr (l2.getElem_mem hi2)
    have hsc21 : cosSim entity_label l2[i2].1 * l2[i2].2 ≤
        cosSim entity_label l1[i1].1 * l1[i1].2 := by
      rcases List.mem_iff_getElem.mp hmem2 with ⟨j, hj, hjeq⟩
      have := hle1 j hj
      rw [hjeq] at this
      exact this
    have hsc12 : cosSim entity_label l1[i1].1 * l1[i1].2 ≤
        cosSim entity_label l2[i2].1 * l2[i2].2 := by
      have hmem12 : l1[i1] ∈ l2 := hp.mem_iff.mp hmem1
      rcases List.mem_iff_getElem.mp hmem12 with ⟨j, hj, hjeq⟩
      have := hle2 j hj
      rw [hjeq] at this
      exact this
    have heqel : l1[i1] = l2[i2] :=
      eq_of_mem_map_nodup hnd hmem1 hmem2 (le_antisymm hsc12 hsc21)
    rw [heq1, heq2, heqel]
  · intro cosSim context l hne
    rcases context_entity_matching_spec cosSim context l hne with ⟨i, hi, heq, hle, hlt⟩
    refine ⟨i, hi, ?_, ?_, ?_⟩
    · rw [heq, List.getD_eq_getElem _ _ hi]
    · intro j hj
      rw [List.getD_eq_getElem _ _ hj, List.getD_eq_getElem _ _ hi]
      exact hle j hj
    · intro j hj hji
      rw [List.getD_eq_getElem _ _ hj, List.getD_eq_getElem _ _ hi]
      exact hlt j hj hji
  · intro cosSim entity_label l hne
    rcases entity_label_matching_spec cosSim entity_label l hne with ⟨i, hi, heq, hle, hlt⟩
    refine ⟨i, hi, ?_, ?_, ?_⟩
    · rw [heq, List.getD_eq_getElem _ _ hi]
    · intro j hj
      rw [List.getD_eq_getElem _ _ hj, List.getD_eq_getElem _ _ hi]
      exact hle j hj
    · intro j hj hji
      rw [List.getD_eq_getElem _ _ hj, List.getD_eq_getElem _ _ hi]
      exact hlt j hj hji

/-- Witness for C8 at a concrete candidate set and its reversal: both
matchers pick the same winner in either insertion order. -/
theorem C8_witness :
    context_entity_matching (fun _ s => if s == "a" then (1 : ℚ) else 1/2) "ctx"
        [("A", "a", 1), ("B", "b", 1)] =
      context_entity_matching (fun _ s => if s == "a" then (1 : ℚ) else 1/2) "ctx"
        [("B", "b", 1), ("A", "a", 1)] ∧
    entity_label_matching (fun _ s => if s == "A" then (1 : ℚ) else 1/2) "lbl"
        [("A", 1), ("B", 1)] =
      entity_label_matching (fun _ s => if s == "A" then (1 : ℚ) else 1/2) "lbl"
        [("B", 1), ("A", 1)] :=
  ⟨C8_matching_order_invariant.1 (fun _ s => if s == "a" then (1 : ℚ) else 1/2) "ctx"
      [("A", "a", 1), ("B", "b", 1)] [("B", "b", 1), ("A", "a", 1)]
      (List.Perm.swap ("B", "b", 1) ("A", "a", 1) [])
      (by simp)
      (by simp),
    C8_matching_order_invariant.2.1 (fun _ s => if s == "A" then (1 : ℚ) else 1/2) "lbl"
      [("A", 1), ("B", 1)] [("B", 1), ("A", 1)]
      (List.Perm.swap ("B", 1) ("A", 1) [])
      (by simp)
      (by simp)⟩

/-- Looking up the inserted key yields the inserted value. -/
theorem pyDictInsert_lookup_self {α : Type} (d : List (String × α)) (k : String) (v : α) :
    (pyDictInsert d k v).lookup k = some v := by
  induction d with
  | nil => simp [pyDictInsert, List.lookup]
  | cons kv rest ih =>
    by_cases hk : kv.1 = k
    · simp [pyDictInsert, beq_iff_eq, hk, List.lookup]
    · simp only [pyDictInsert, beq_iff_eq, if_neg hk, List.lookup]
      rw [beq_eq_false_iff_ne.mpr (Ne.symm hk)]
      exact ih

/-- Inserting under one key leaves lookups of other keys unchanged. -/
theorem pyDictInsert_lookup_other {α : Type} (d : List (String × α)) (k k2 : String) (v : α)
    (hne : k2 ≠ k) : (pyDictInsert d k v).lookup k2 = d.lookup k2 := by
  induction d with
  | nil => simp [pyDictInsert, List.lookup, beq_eq_false_iff_ne.mpr hne]
  | cons kv rest ih =>
    by_cases hk : kv.1 = k
    · simp only [pyDictInsert, beq_iff_eq, if_pos hk, List.lookup]
      rw [beq_eq_false_iff_ne.mpr hne, beq_eq_false_iff_ne.mpr (hk ▸ hne)]
    · simp only [pyDictInsert, beq_iff_eq, if_neg hk, List.lookup]
      by_cases h2x : k2 = kv.1
      · rw [beq_iff_eq.mpr h2x]
      · rw [beq_eq_false_iff_ne.mpr h2x]
        exact ih

/-- In a dict with pairwise distinct keys, membership determines the
lookup. -/
theorem lookup_eq_some_of_mem_nodup {α : Type} {l : List (String × α)} {k : String} {v : α}
    (hmem : (k, v) ∈ l) (hnd : (l.map Prod.fst).Nodup) : l.lookup k = some v := by
  induction l with
  | nil => cases hmem
  | cons x xs ih =>
    simp only [List.map_cons, List.nodup_cons] at hnd
    rcases List.mem_cons.mp hmem with heq | hmem2
    · rw [← heq]
      simp [List.lookup]
    · have hx : k ≠ x.1 := by
        intro he
        exact hnd.1 (he ▸ List.mem_map_of_mem Prod.fst hmem2)
      simp only [List.lookup]
      rw [beq_eq_false_iff_ne.mpr hx]
      exact ih hmem2 hnd.2

/-- A key never targeted by the projection loop keeps its accumulator
binding. -/
theorem projectClaims_lookup_of_not_written (fetch : String → Fetched) (lang : String)
    (props : List (String × String)) (outName : String) :
    ∀ (claims : List (String × List WDClaim)) (acc : EntityInfo),
    (∀ pc ∈ claims, props.lookup pc.1 ≠ some outName) →
    (projectClaims fetch lang props claims acc).lookup outName = acc.lookup outName := by
  intro claims
  induction claims with
  | nil => intro acc _; rfl
  | cons pc rest ih =>
    intro acc h
    unfold projectClaims
    rw [List.foldl_cons]
    cases hlk : props.lookup pc.1 with
    | none =>
      exact ih acc (fun x hx => h x (List.mem_cons_of_mem pc hx))
    | some o =>
      have ho : o ≠ outName := by
        intro he
        exact h pc (List.mem_cons_self pc rest) (by rw [hlk, he])
      have := ih (pyDictInsert acc o (collapseValues (claimValues fetch lang pc.2)))
        (fun x hx => h x (List.mem_cons_of_mem pc hx))
      unfold projectClaims at this
      rw [this]
      exact pyDictInsert_lookup_other acc o outName _ (Ne.symm ho)

/-- After the projection loop writes a property and no later claim targets
the same output name, the output binds that name to the collapsed
values. -/
theorem projectClaims_lookup_written (fetch : String → Fetched) (lang : String)
    (props : List (String × String)) (outName : String) (p : String)
    (cl : List WDClaim) (pre post : List (String × List WDClaim)) (acc : EntityInfo)
    (hlk : props.lookup p = some outName)
    (hpost : ∀ pc ∈ post, props.lookup pc.1 ≠ some outName) :
    (projectClaims fetch lang props (pre ++ (p, cl) :: post) acc).lookup outName =
      some (collapseValues (claimValues fetch lang cl)) := by
  have hrest := projectClaims_lookup_of_not_written fetch lang props outName post
    (pyDictInsert (projectClaims fetch lang props pre acc) outName
      (collapseValues (claimValues fetch lang cl))) hpost
  unfold projectClaims at hrest ⊢
  rw [List.foldl_append, List.foldl_cons]
  simp only [hlk]
  rw [hrest]
  exact pyDictInsert_lookup_self _ outName _

/-- C3, counterexample to the claim as stated: a requested property that
does not occur among the record's claims is omitted from the projection
output entirely — the output dict holds only the label and description and
has no key for the requested `P106`/`occupation` field, while the claim
demands an empty list under every requested key. -/
theorem C3_counterexample :
    extract_wikidata_entity_info
        (fun _ => Fetched.ok ⟨"item", [("en", "Alice")], [("en", "human")], []⟩) "Q1"
        [("P106", "occupation")] "en" =
      Except.ok [("label", PyVal.str "Alice"), ("description", PyVal.str "human")] ∧
    ([("label", PyVal.str "Alice"), ("description", PyVal.str "human")] :
      EntityInfo).lookup "occupation" = none :=
  ⟨rfl, rfl⟩

/-- C3, amended: the projection output of `extract_wikidata_entity_info`
contains a requested property key exactly when the property occurs among
the record's claims.  For a requested property present in the claims, a
single extracted value is stored as a scalar and zero or two-or-more
values are stored as an ordered list (the empty list for zero values); a
requested property absent from the claims is omitted from the output.
(The schema is assumed well-formed: distinct property ids, distinct output
field names, and no output field named `label` or `description`.) -/
theorem C3_requested_property_keys (fetch : String → Fetched) (qid lang : String)
    (props : List (String × String)) (e : WDEntity) (out : EntityInfo)
    (hf : fetch qid = Fetched.ok e)
    (hout : extract_wikidata_entity_info fetch qid props lang = Except.ok out)
    (hck : (e.claims.map Prod.fst).Nodup)
    (hpk : (props.map Prod.fst).Nodup)
    (hpn : (props.map Prod.snd).Nodup)
    (hreserved : ∀ pn ∈ props.map Prod.snd, pn ≠ "label" ∧ pn ≠ "description") :
    ∀ p outName, (p, outName) ∈ props →
      (p ∉ e.claims.map Prod.fst → out.lookup outName = none) ∧
      (∀ cl, (p, cl) ∈ e.claims →
        ((claimValues fetch lang cl).length = 1 →
          out.lookup outName = some (PyVal.str ((claimValues fetch lang cl).getD 0 ""))) ∧
        ((claimValues fetch lang cl).length ≠ 1 →
          out.lookup outName = some (PyVal.list (claimValues fetch lang cl)))) := by
  simp only [extract_wikidata_entity_info, get_entity_info, hf] at hout
  cases hlab : (match e.labels.lookup lang with
      | some v => some v
      | none => e.labels.lookup "en") with
  | none =>
    rw [hlab] at hout
    cases hout
  | some labelv =>
    rw [hlab] at hout
    cases hdesc : (match e.descriptions.lookup lang with
        | some v => some v
        | none => e.descriptions.lookup "en") with
    | none =>
      rw [hdesc] at hout
      cases hout
    | some descv =>
      rw [hdesc] at hout
      simp only at hout
      injection hout with hout2
      subst hout2
      intro p outName hpmem
      have hname : outName ≠ "label" ∧ outName ≠ "description" :=
        hreserved outName (List.mem_map_of_mem Prod.snd hpmem)
      have hbase : (pyDictInsert (pyDictInsert [] "label" (PyVal.str labelv)) "description"
          (PyVal.str descv)).lookup outName = none := by
        simp only [pyDictInsert, List.lookup]
        rw [beq_eq_false_iff_ne.mpr hname.1]
        simp only [List.lookup]
        rw [beq_eq_false_iff_ne.mpr hname.2]
      constructor
      · intro hnotin
        have hnw : ∀ pc ∈ e.claims, props.lookup pc.1 ≠ some outName := by
          intro pc hpc heq
          have hmem2 : (pc.1, outName) ∈ props := mem_of_lookup_eq_some heq
          have := eq_of_mem_map_nodup hpn hpmem hmem2 rfl
          have hpp : p = pc.1 := congrArg Prod.fst this
          exact hnotin (hpp ▸ List.mem_map_of_mem Prod.fst hpc)
        rw [projectClaims_lookup_of_not_written fetch lang props outName e.claims _ hnw]
        exact hbase
      · intro cl hclmem
        have hlkp : props.lookup p = some outName := lookup_eq_some_of_mem_nodup hpmem hpk
        rcases List.append_of_mem hclmem with ⟨pre, post, hsplit⟩
        have hpnotpost : p ∉ post.map Prod.fst := by
          rw [hsplit] at hck
          rw [List.map_append, List.map_cons] at hck
          rcases List.nodup_append.mp hck with ⟨_, hnd2, _⟩
          exact (List.nodup_cons.mp hnd2).1
        have hpost : ∀ pc ∈ post, props.lookup pc.1 ≠ some outName := by
          intro pc hpc heq
          have hmem2 : (pc.1, outName) ∈ props := mem_of_lookup_eq_some heq
          have := eq_of_mem_map_nodup hpn hpmem hmem2 rfl
          have hpp : p = pc.1 := congrArg Prod.fst this
          exact hpnotpost (hpp ▸ List.mem_map_of_mem Prod.fst hpc)
        have hw : (projectClaims fetch lang props e.claims
            (pyDictInsert (pyDictInsert [] "label" (PyVal.str labelv)) "description"
              (PyVal.str descv))).lookup outName =
            some (collapseValues (claimValues fetch lang cl)) := by
          rw [hsplit]
          exact projectClaims_lookup_written fetch lang props outName p cl pre post _ hlkp hpost
        constructor
        · intro hlen1
          rw [hw]
          simp [collapseValues, hlen1]
        · intro hlenne
          rw [hw]
          rcases Nat.eq_zero_or_pos (claimValues fetch lang cl).length with hz | hpos
          · have : claimValues fetch lang cl = [] := List.length_eq_zero.mp hz
            simp [collapseValues, this]
          · have hgt : (claimValues fetch lang cl).length > 1 := by omega
            simp [collapseValues, hgt, Nat.ne_of_gt (by omega : 0 < (claimValues fetch lang cl).length)]

/-- Witness for the amended C3 theorem at a concrete record: a requested
single-valued property comes back as a scalar, a requested property with an
empty claims list comes back as an empty list, and a requested property
absent from the claims is omitted. -/
theorem C3_witness :
    ([("label", PyVal.str "Alice"), ("description", PyVal.str "human"),
        ("instance", PyVal.str "city"), ("empty", PyVal.list [])] : EntityInfo).lookup
        "other" = none ∧
    ([("label", PyVal.str "Alice"), ("description", PyVal.str "human"),
        ("instance", PyVal.str "city"), ("empty", PyVal.list [])] : EntityInfo).lookup
        "instance" = some (PyVal.str "city") ∧
    ([("label", PyVal.str "Alice"), ("description", PyVal.str "human"),
        ("instance", PyVal.str "city"), ("empty", PyVal.list [])] : EntityInfo).lookup
        "empty" = some (PyVal.list []) := by
  have h := C3_requested_property_keys
    (fun _ => Fetched.ok ⟨"item", [("en", "Alice")], [("en", "human")],
      [("P31", [⟨"value", WDValue.lit "city"⟩]), ("P77", [])]⟩) "Q1" "en"
    [("P31", "instance"), ("P77", "empty"), ("P9", "other")]
    ⟨"item", [("en", "Alice")], [("en", "human")],
      [("P31", [⟨"value", WDValue.lit "city"⟩]), ("P77", [])]⟩
    [("label", PyVal.str "Alice"), ("description", PyVal.str "human"),
      ("instance", PyVal.str "city"), ("empty", PyVal.list [])]
    rfl rfl (by decide) (by decide) (by decide) (by decide)
  refine ⟨(h "P9" "other" (by decide)).1 (by decide), ?_, ?_⟩
  · exact ((h "P31" "instance" (by decide)).2 [⟨"value", WDValue.lit "city"⟩]
      (by decide)).1 rfl
  · exact ((h "P77" "empty" (by decide)).2 [] (by decide)).2 (by decide)

/-- Characterization of the dispatcher loop: when every label tokenizes to
a nonempty list and every dispatched call succeeds with value
`f label start type`, the loop computes one `(label, result)` pair per
processed mention, in input order. -/
theorem extract_entities_loop_spec (deps : DispatchDeps) (text : String)
    (n w : ℕ) (lang : String) (f : String → ℕ → String → EntityInfo) :
    ∀ (mentions : List (String × ℕ × String)) (lastInfo : Option EntityInfo),
    (∀ m ∈ mentions, deps.tokenize m.1 ≠ []) →
    (∀ m ∈ mentions, ∀ pe, preprocess_entity_name deps.tokenize deps.stopwords m.1 =
        Except.ok pe → pe ≠ "" →
        dispatchCall deps m.2.2 text pe m.2.1 n w lang =
          some (Except.ok (f m.1 m.2.1 m.2.2))) →
    extract_entities_loop deps text n w lang mentions lastInfo =
      Except.ok ((mentions.filter (fun m => mentionProcessed deps m.1)).map
        (fun m => (m.1, f m.1 m.2.1 m.2.2))) := by
  intro mentions
  induction mentions with
  | nil =>
    intro lastInfo _ _
    rfl
  | cons m rest ih =>
    intro lastInfo htok hres
    obtain ⟨ent, start, ty⟩ := m
    have htokm := htok (ent, start, ty) (List.mem_cons_self _ _)
    cases htk : deps.tokenize ent with
    | nil => exact absurd htk htokm
    | cons t ts =>
      have hpre : preprocess_entity_name deps.tokenize deps.stopwords ent =
          Except.ok (if deps.stopwords.contains (pyToLower t) then " ".intercalate ts
            else ent) := by
        simp only [preprocess_entity_name, htk]
        split <;> rfl
      have htokr : ∀ m2 ∈ rest, deps.tokenize m2.1 ≠ [] :=
        fun m2 hm2 => htok m2 (List.mem_cons_of_mem _ hm2)
      have hresr : ∀ m2 ∈ rest, ∀ pe,
          preprocess_entity_name deps.tokenize deps.stopwords m2.1 = Except.ok pe →
          pe ≠ "" → dispatchCall deps m2.2.2 text pe m2.2.1 n w lang =
            some (Except.ok (f m2.1 m2.2.1 m2.2.2)) :=
        fun m2 hm2 => hres m2 (List.mem_cons_of_mem _ hm2)
      by_cases hpe : (if deps.stopwords.contains (pyToLower t) then " ".intercalate ts
          else ent) = ""
      · have hmp : mentionProcessed deps ent = false := by
          simp only [mentionProcessed, hpre, hpe]
          simp
        simp only [extract_entities_loop, hpre]
        rw [if_pos (beq_iff_eq.mpr hpe)]
        rw [ih lastInfo htokr hresr]
        rw [List.filter_cons]
        simp only [hmp, Bool.false_eq_true, if_false, reduceIte]
      · have hmp : mentionProcessed deps ent = true := by
          simp only [mentionProcessed, hpre]
          exact decide_eq_true hpe
        have hdc := hres (ent, start, ty) (List.mem_cons_self _ _) _ hpre hpe
        simp only [extract_entities_loop, hpre]
        rw [if_neg (fun hcon => hpe (beq_iff_eq.mp hcon))]
        simp only at hdc
        simp only [hdc]
        rw [ih (some (f ent start ty)) htokr hresr]
        simp [List.filter_cons, hmp]

/-- C1, counterexample to the claim as stated: the dispatcher's public call
computes the ordered `(mention, record)` pairs — the first component of the
modelled outcome, which the loop prints — but returns `None` to its caller
(the function body has no `return` statement), so the call does not return
the collected sequence of pairs. -/
theorem C1_counterexample :
    extract_entities
      ⟨fun s => [s], [], fun _ _ _ _ _ _ => Except.ok [],
        fun _ _ _ _ _ _ => Except.ok [], fun _ _ _ _ _ _ => Except.ok []⟩
      [("Paris", 3, "LOC")] "in Paris" 1 1 "en" =
      Except.ok ([("Paris", [])], none) := rfl

/-- C1, amended: for every document text and ordered mention list, when
every mention label tokenizes to a nonempty token list and every dispatched
resolver call returns a record, `extract_entities` processes the mentions
in input order, computing (and printing) exactly one
`(mention, record)` pair per processed mention — mentions whose
normalized label is empty are skipped — but the call itself returns
`None`; the pair sequence is not returned to the caller. -/
theorem C1_dispatch_order (deps : DispatchDeps) (text : String) (n w : ℕ) (lang : String)
    (mentions : List (String × ℕ × String)) (f : String → ℕ → String → EntityInfo)
    (htok : ∀ m ∈ mentions, deps.tokenize m.1 ≠ [])
    (hres : ∀ m ∈ mentions, ∀ pe, preprocess_entity_name deps.tokenize deps.stopwords m.1 =
        Except.ok pe → pe ≠ "" →
        dispatchCall deps m.2.2 text pe m.2.1 n w lang =
          some (Except.ok (f m.1 m.2.1 m.2.2))) :
    extract_entities deps mentions text n w lang =
      Except.ok ((mentions.filter (fun m => mentionProcessed deps m.1)).map
        (fun m => (m.1, f m.1 m.2.1 m.2.2)), none) := by
  unfold extract_entities
  rw [extract_entities_loop_spec deps text n w lang f mentions none htok hres]

/-- Witness for the amended C1 theorem on a two-mention document: one pair
per mention in input order, return value `None`. -/
theorem C1_witness :
    extract_entities
      ⟨fun s => [s], ["the"], fun _ _ _ _ _ _ => Except.ok [],
        fun _ _ _ _ _ _ => Except.ok [("label", PyVal.str "IBM")],
        fun _ _ _ _ _ _ => Except.ok [("label", PyVal.str "Paris")]⟩
      [("Paris", 3, "LOC"), ("IBM", 9, "ORG")] "in Paris is IBM" 1 1 "en" =
      Except.ok ([("Paris", [("label", PyVal.str "Paris")]),
        ("IBM", [("label", PyVal.str "IBM")])], none) := by
  have h := C1_dispatch_order
    ⟨fun s => [s], ["the"], fun _ _ _ _ _ _ => Except.ok [],
      fun _ _ _ _ _ _ => Except.ok [("label", PyVal.str "IBM")],
      fun _ _ _ _ _ _ => Except.ok [("label", PyVal.str "Paris")]⟩
    "in Paris is IBM" 1 1 "en" [("Paris", 3, "LOC"), ("IBM", 9, "ORG")]
    (fun lbl _ _ => [("label", PyVal.str lbl)])
    (by intro m hm; fin_cases hm <;> simp)
    (by intro m hm pe hpe hne
        fin_cases hm
        · have h0 : preprocess_entity_name (fun s => [s]) ["the"] "Paris" =
              Except.ok "Paris" := rfl
          rw [h0] at hpe
          injection hpe with hpe2
          subst hpe2
          rfl
        · have h0 : preprocess_entity_name (fun s => [s]) ["the"] "IBM" =
              Except.ok "IBM" := rfl
          rw [h0] at hpe
          injection hpe with hpe2
          subst hpe2
          rfl)
  simpa using h

/-- C2: the spec requires failures to be isolated per mention — a mention
whose winning record lacks a label in both the requested and the fallback
language must not abort the remaining mentions.  In the code the label
fallback `item_info["labels"]["en"]["value"]` raises an uncaught `KeyError`
which propagates through `location_entity_extraction` and aborts the
dispatcher loop: with two LOC mentions where the first exact-matches a
record with no labels at all, the whole call fails and the second mention
is never processed, although the same second mention alone resolves
fine. -/
theorem C2_bad_mention_aborts_rest :
    extract_entities
      ⟨fun s => [s], [],
        fun _ _ _ _ _ _ => Except.ok [],
        fun _ _ _ _ _ _ => Except.ok [],
        fun text entity s n w l =>
          location_entity_extraction
            ⟨fun article _ => Except.ok (if article == "BadTown" then "Q1" else "Q2"),
              fun q => if q == "Q1" then Fetched.ok ⟨"item", [], [], [("P37", [])]⟩
                else Fetched.ok ⟨"item", [("de", "Paris")], [("de", "Stadt")], [("P37", [])]⟩,
              fun _ => [], fun _ _ => 0⟩
            [] text entity s n w l⟩
      [("BadTown", 0, "LOC"), ("Paris", 0, "LOC")] "BadTown und Paris" 1 1 "de" =
      Except.error "KeyError" ∧
    extract_entities
      ⟨fun s => [s], [],
        fun _ _ _ _ _ _ => Except.ok [],
        fun _ _ _ _ _ _ => Except.ok [],
        fun text entity s n w l =>
          location_entity_extraction
            ⟨fun article _ => Except.ok (if article == "BadTown" then "Q1" else "Q2"),
              fun q => if q == "Q1" then Fetched.ok ⟨"item", [], [], [("P37", [])]⟩
                else Fetched.ok ⟨"item", [("de", "Paris")], [("de", "Stadt")], [("P37", [])]⟩,
              fun _ => [], fun _ _ => 0⟩
            [] text entity s n w l⟩
      [("Paris", 0, "LOC")] "BadTown und Paris" 1 1 "de" =
      Except.ok ([("Paris", [("label", PyVal.str "Paris"),
        ("description", PyVal.str "Stadt")])], none) :=
  ⟨rfl, rfl⟩

end Medea
